import Mathlib

/-!
Shallow embedding of the turn-orchestration flow of the Zephyr chat client
(`src/zephyr-4.5-apex (1)/index.tsx`, function `sendMessage` together with its
helpers `getCurrentPosition` and the message model of `types.ts`).

Strings are modelled as `List Char` (`Str`); JavaScript string truthiness is
emptiness, `undefined` is `Option.none`.  The React state updates performed via
`setMessages` with functional updaters are modelled as a trace of successive
message-list states.  External collaborators (the persona classifier
`selectAgent`, the image generator `generateImageUrl`, the API key, the
geolocation outcome, and the streamed chunk sequence of the completion
service) enter as oracle fields of `Params`.
-/

namespace Zephyr

abbrev Str := List Char

/-- JavaScript `String.prototype.trim`: drop whitespace at both ends. -/
def trim (s : Str) : Str :=
  ((s.dropWhile Char.isWhitespace).reverse.dropWhile Char.isWhitespace).reverse

/-- JavaScript `String.prototype.toLowerCase` (ASCII model). -/
def toLowerStr (s : Str) : Str := s.map Char.toLower

/-- JavaScript `s.startsWith(p)`. -/
def strStartsWith (s p : Str) : Bool := s.take p.length == p

/-- JavaScript `s.includes(sub)`. -/
def containsSub (s sub : Str) : Bool :=
  (List.range (s.length + 1)).any (fun i => strStartsWith (s.drop i) sub)

/-- JavaScript regex word characters `\w` = `[A-Za-z0-9_]`. -/
def isWordChar (c : Char) : Bool := c.isAlphanum || c == '_'

/-- True when position `i` of `s` is out of range or holds a non-word char. -/
def noWordCharAt (s : Str) (i : Nat) : Bool :=
  match s.get? i with
  | some c => !isWordChar c
  | none => true

/-- The literal `w` occurs at index `i` of `s` with `\b` boundaries on both
sides (the literals used below begin and end with word characters). -/
def wordMatchAt (s w : Str) (i : Nat) : Bool :=
  strStartsWith (s.drop i) w && (i == 0 || noWordCharAt s (i - 1)) &&
    noWordCharAt s (i + w.length)

/-- `.test` of a regex of the shape `\b(w1|w2|...)\b`. -/
def testWordRegex (ws : List Str) (s : Str) : Bool :=
  (List.range (s.length + 1)).any (fun i => ws.any (fun w => wordMatchAt s w i))

/-- The regex `\b(time|date)\b` of the time/date short-circuit. -/
def timeDateRegex (s : Str) : Bool :=
  testWordRegex ["time".toList, "date".toList] s

/-- The regex `\b(developed you|your developer|your creator|created you|made you)\b`. -/
def creatorRegex (s : Str) : Bool :=
  testWordRegex
    ["developed you".toList, "your developer".toList, "your creator".toList,
     "created you".toList, "made you".toList] s

/-- Word list of the maps-query regex
`\b(near|nearby|location|place|restaurant|cafe|hotel|park|address|direction|where is|at)\b`. -/
def mapWords : List Str :=
  ["near".toList, "nearby".toList, "location".toList, "place".toList,
   "restaurant".toList, "cafe".toList, "hotel".toList, "park".toList,
   "address".toList, "direction".toList, "where is".toList, "at".toList]

/-- The maps-query regex test (applied to the already-lowercased input). -/
def isMapQueryTest (s : Str) : Bool := testWordRegex mapWords s

/-- `Role` of `types.ts`. -/
inductive Role
  | user
  | model
deriving DecidableEq

/-- A citation source entry `{ title, uri }` of `types.ts`. -/
structure Source where
  title : Str
  uri : Str
deriving DecidableEq

/-- The `type` field of a message: `'text' | 'image'`. -/
inductive MsgKind
  | text
  | image
deriving DecidableEq

/-- `Message` of `types.ts` (the `audioBuffer` cache field is browser-only
and never consulted by `sendMessage`, so it is omitted). -/
structure Message where
  id : Option Str := none
  role : Role
  text : Str
  sources : Option (List Source) := none
  image : Option Str := none
  agentName : Option Str := none
  msgType : Option MsgKind := none
  isLoading : Option Bool := none
deriving DecidableEq

/-- JavaScript truthiness of the optional `isLoading` field. -/
def Message.loading (m : Message) : Bool := m.isLoading.getD false

/-- JavaScript falsiness `!x` of an optional string: absent or empty. -/
def strOptFalsy : Option Str → Bool
  | none => true
  | some s => s.isEmpty

/-- The persona record returned by the external classifier `selectAgent`. -/
structure Agent where
  name : Str
  role : Str
  description : Str
  instructions : Str
deriving DecidableEq

/-- The processed image attachment `{ data, mimeType, url }`. -/
structure Attachment where
  data : Str
  mimeType : Str
  url : Str
deriving DecidableEq

/-- A raw grounding source as delivered by the API: both fields optional. -/
structure RawSource where
  uri : Option Str := none
  title : Option Str := none
deriving DecidableEq

/-- One entry of `groundingMetadata.groundingChunks`: web or maps shaped. -/
structure GroundingChunk where
  web : Option RawSource := none
  maps : Option RawSource := none
deriving DecidableEq

/-- One streamed chunk: optional text fragment and optional grounding list
(`none` models an absent `groundingChunks` path). -/
structure Chunk where
  text : Option Str := none
  groundingChunks : Option (List GroundingChunk) := none
deriving DecidableEq

/-- Outcome of the streaming call: the chunks delivered before the iteration
ended, and `err = some e` when it ended by raising an error with detail `e`
(`chunks = []` with an error models a throw before any chunk arrived). -/
structure StreamOutcome where
  chunks : List Chunk
  err : Option Str := none
deriving DecidableEq

/-- Geolocation coordinates (numeric payload modelled over `Int`). -/
structure LatLng where
  latitude : Int
  longitude : Int
deriving DecidableEq

/-- The `timeout` option passed to `navigator.geolocation.getCurrentPosition`
in `getCurrentPosition` (index.tsx line 454). -/
def getCurrentPositionTimeoutMs : Nat := 10000

/-- A part of an outbound content entry: text or inline image data. -/
inductive Part
  | text (s : Str)
  | inlineData (mimeType : Str) (data : Str)
deriving DecidableEq

/-- One entry of the outbound `contents` array. -/
structure ContentEntry where
  role : Role
  parts : List Part
deriving DecidableEq

/-- A retrieval tool enabled on the request. -/
inductive Tool
  | googleSearch
  | googleMaps
deriving DecidableEq

/-- The outbound request handed to `ai.models.generateContentStream`. -/
structure Request where
  systemInstruction : Str
  contents : List ContentEntry
  tools : List Tool
  toolConfig : Option LatLng := none
deriving DecidableEq

/-- `if (c.web) return c.web; if (c.maps) return c.maps; return null;` -/
def pickRaw (c : GroundingChunk) : Option RawSource :=
  match c.web with
  | some w => some w
  | none => c.maps

/-- The filter `!!(s?.uri && s.title)` (empty strings are falsy) applied to a
raw source, returning the kept `{title, uri}` record. -/
def rawOk (r : RawSource) : Option Source :=
  match r.uri, r.title with
  | some u, some t => if u.isEmpty || t.isEmpty then none else some { title := t, uri := u }
  | _, _ => none

/-- The per-chunk source extraction (index.tsx lines 578-582). -/
def chunkSources (gcs : List GroundingChunk) : List Source :=
  gcs.filterMap (fun c => (pickRaw c).bind rawOk)

/-- The merge of line 585: append the new sources whose URI is not among the
already-accumulated ones.  Note the filter consults only `acc`, not the part
of `ns` already appended. -/
def mergeSources (acc ns : List Source) : List Source :=
  acc ++ ns.filter (fun s => !(acc.any (fun e => e.uri == s.uri)))

/-- A `setMessages(prev => prev.map(m => m.id === pid ? f(m) : m))` update. -/
def setPlaceholder (pid : Str) (f : Message → Message) (ms : List Message) :
    List Message :=
  ms.map (fun m => if m.id = some pid then f m else m)

/-- State carried through the `for await` loop over the stream: the
accumulated text and sources, the current message list, and the message-list
states emitted by `setMessages` calls inside the loop (in order). -/
structure StreamState where
  fullText : Str
  accumulatedSources : List Source
  cur : List Message
  states : List (List Message)
deriving DecidableEq

/-- Whether a chunk carries a truthy text fragment (`if (text)`). -/
def truthyText (c : Chunk) : Bool :=
  match c.text with
  | some t => !t.isEmpty
  | none => false

/-- The sources extracted from a chunk (empty when `groundingChunks` absent). -/
def chunkSourcesOf (c : Chunk) : List Source :=
  match c.groundingChunks with
  | some gcs => chunkSources gcs
  | none => []

/-- One iteration of the `for await (const chunk of responseStream)` loop
(index.tsx lines 568-589). -/
def applyChunk (pid : Str) (st : StreamState) (c : Chunk) : StreamState :=
  let st1 :=
    if truthyText c then
      let ft := st.fullText ++ (c.text.getD [])
      let nxt := setPlaceholder pid
        (fun m => { m with text := ft, isLoading := some false }) st.cur
      { st with fullText := ft, cur := nxt, states := st.states ++ [nxt] }
    else st
  let srcs := chunkSourcesOf c
  if srcs.isEmpty then st1
  else
    let acc := mergeSources st1.accumulatedSources srcs
    let nxt := setPlaceholder pid (fun m => { m with sources := some acc }) st1.cur
    { st1 with accumulatedSources := acc, cur := nxt, states := st1.states ++ [nxt] }

/-- Inputs of one `sendMessage` call, with the outcomes of the external
collaborators as oracles. -/
structure Params where
  messageText : Str
  imageAttachment : Option Attachment := none
  /-- Result of `await selectAgent(messageText)`. -/
  selectedAgent : Option Agent := none
  /-- `process.env.API_KEY` (`none` = absent/falsy). -/
  apiKey : Option Str := none
  /-- Outcome of `getCurrentPosition()`: `some` = resolved, `none` = rejected
  (permission denied, timeout, unsupported). -/
  geo : Option LatLng := none
  /-- Outcome of the streaming completion call. -/
  stream : StreamOutcome := { chunks := [] }
  /-- `new Date().toLocaleString()`. -/
  nowString : Str := []
  /-- `Date.now().toString()`, the base of the fresh message ids. -/
  idBase : Str := []
  /-- The external pure image generator `generateImageUrl`. -/
  generateImageUrl : Str → Str := fun _ => []

/-- Result of one `sendMessage` call: the trace of message-list states (the
head is the state on entry), whether the persona classifier was invoked, and
the outbound request when the network call was issued (`none` = no network
call). -/
structure TurnResult where
  trace : List (List Message)
  calledSelectAgent : Bool
  request : Option Request

/-- Shallow embedding of `sendMessage` (index.tsx lines 458-593). -/
def sendMessage (p : Params) (messages : List Message) : TurnResult :=
  let isBusy := messages.any Message.loading
  if ((trim p.messageText).isEmpty && p.imageAttachment.isNone) || isBusy then
    { trace := [messages], calledSelectAgent := false, request := none }
  else
    let userMsgId := p.idBase ++ "-user".toList
    let placeholderId := p.idBase ++ "-model".toList
    let userMessage : Message :=
      { role := Role.user, text := trim p.messageText,
        image := p.imageAttachment.map Attachment.url, id := some userMsgId }
    let lowerCaseInput := toLowerStr (trim p.messageText)
    let imagePrompt := (trim p.messageText).drop 7
    if strStartsWith lowerCaseInput ("/image ".toList) && !imagePrompt.isEmpty then
      let s1 := messages ++ [userMessage,
        { role := Role.model, text := p.generateImageUrl imagePrompt,
          msgType := some MsgKind.image, agentName := some ("Creative Agent".toList),
          id := some placeholderId }]
      { trace := [messages, s1], calledSelectAgent := false, request := none }
    else
      let agentName :=
        match p.selectedAgent with
        | some a => a.name
        | none => "Zephyr".toList
      let s1 := messages ++ [userMessage,
        { role := Role.model, text := [], agentName := some agentName,
          id := some placeholderId, isLoading := some true }]
      if p.imageAttachment.isNone && timeDateRegex lowerCaseInput then
        let s2 := setPlaceholder placeholderId
          (fun m => { m with
            text := "The current date and time is: ".toList ++ p.nowString,
            isLoading := some false }) s1
        { trace := [messages, s1, s2], calledSelectAgent := true, request := none }
      else if p.imageAttachment.isNone && creatorRegex lowerCaseInput &&
          !containsSub lowerCaseInput ("quantum coders".toList) then
        let s2 := setPlaceholder placeholderId
          (fun m => { m with
            text := "I was created by **Mohammad Rayyan Ali**.".toList,
            isLoading := some false }) s1
        { trace := [messages, s1, s2], calledSelectAgent := true, request := none }
      else
        if strOptFalsy p.apiKey then
          let s2 := setPlaceholder placeholderId
            (fun m => { m with
              text := "Error: API Key missing.".toList,
              isLoading := some false }) s1
          { trace := [messages, s1, s2], calledSelectAgent := true, request := none }
        else
          let finalSystemInstruction :=
            match p.selectedAgent with
            | some a =>
              a.instructions ++ "\n\nCURRENT AGENT MODE: ".toList ++ agentName ++
                "\nROLE: ".toList ++ a.role ++ "\nDESCRIPTION: ".toList ++ a.description
            | none =>
              ("You are Zephyr, a helpful AI assistant created by Quantum Coders." ++
               " Responses should be formatted in Markdown.").toList
          let historyForAPI :=
            (messages.filter (fun m => !m.loading)).map
              (fun msg => { role := msg.role, parts := [Part.text msg.text] : ContentEntry })
          let currentParts :=
            (if (trim p.messageText).isEmpty then [] else [Part.text (trim p.messageText)]) ++
            (match p.imageAttachment with
             | some a => [Part.inlineData a.mimeType a.data]
             | none => [])
          let contents := historyForAPI ++ [{ role := Role.user, parts := currentParts }]
          let isMapQuery := isMapQueryTest lowerCaseInput
          let tools := [Tool.googleSearch] ++ (if isMapQuery then [Tool.googleMaps] else [])
          let toolConfig := if isMapQuery then p.geo else none
          let req : Request :=
            { systemInstruction := finalSystemInstruction, contents := contents,
              tools := tools, toolConfig := toolConfig }
          let st0 : StreamState :=
            { fullText := [], accumulatedSources := [], cur := s1, states := [] }
          let stF := p.stream.chunks.foldl (applyChunk placeholderId) st0
          match p.stream.err with
          | some e =>
            let sE := setPlaceholder placeholderId
              (fun m => { m with
                text := "Connection Error: ".toList ++ e,
                isLoading := some false }) stF.cur
            { trace := [messages, s1] ++ stF.states ++ [sE],
              calledSelectAgent := true, request := some req }
          | none =>
            { trace := [messages, s1] ++ stF.states,
              calledSelectAgent := true, request := some req }

/-- The last message-list state of a turn (the transcript after the turn). -/
def lastState (p : Params) (messages : List Message) : List Message :=
  (sendMessage p messages).trace.getLastD messages

/-- Number of messages currently in the loading state. -/
def countLoading (ms : List Message) : Nat := ms.countP (fun m => m.loading)

/-- The placeholder id generated for a turn. -/
def placeholderIdOf (p : Params) : Str := p.idBase ++ "-model".toList

/-- A URI-distinctness predicate on a source list. -/
def distinctURIs (l : List Source) : Prop :=
  l.Pairwise (fun a b => a.uri ≠ b.uri)

instance : DecidablePred distinctURIs := fun l =>
  inferInstanceAs (Decidable (l.Pairwise _))

/-- The user message appended for a turn (index.tsx lines 465-470). -/
def mkUserMessage (p : Params) : Message :=
  { role := Role.user, text := trim p.messageText,
    image := p.imageAttachment.map Attachment.url,
    id := some (p.idBase ++ "-user".toList) }

/-- The agent name of a turn: the selected persona or the default. -/
def agentNameOf (p : Params) : Str :=
  match p.selectedAgent with
  | some a => a.name
  | none => "Zephyr".toList

/-- The state after appending the user message and the loading placeholder
(index.tsx lines 491-497). -/
def mkS1 (p : Params) (messages : List Message) : List Message :=
  messages ++ [mkUserMessage p,
    { role := Role.model, text := [], agentName := some (agentNameOf p),
      id := some (placeholderIdOf p), isLoading := some true }]

/-- The system instruction of the outbound request (lines 521-523). -/
def systemInstructionOf (p : Params) : Str :=
  match p.selectedAgent with
  | some a =>
    a.instructions ++ "\n\nCURRENT AGENT MODE: ".toList ++ agentNameOf p ++
      "\nROLE: ".toList ++ a.role ++ "\nDESCRIPTION: ".toList ++ a.description
  | none =>
    ("You are Zephyr, a helpful AI assistant created by Quantum Coders." ++
     " Responses should be formatted in Markdown.").toList

/-- The outbound conversation history (line 525): prior non-loading messages
reduced to role plus a single text part. -/
def historyForAPIOf (messages : List Message) : List ContentEntry :=
  (messages.filter (fun m => !m.loading)).map
    (fun msg => { role := msg.role, parts := [Part.text msg.text] })

/-- The current-turn parts (lines 526-528). -/
def currentPartsOf (p : Params) : List Part :=
  (if (trim p.messageText).isEmpty then [] else [Part.text (trim p.messageText)]) ++
  (match p.imageAttachment with
   | some a => [Part.inlineData a.mimeType a.data]
   | none => [])

/-- The outbound request of a turn that reaches the network call. -/
def mkRequest (p : Params) (messages : List Message) : Request :=
  { systemInstruction := systemInstructionOf p,
    contents := historyForAPIOf messages ++ [{ role := Role.user, parts := currentPartsOf p }],
    tools := [Tool.googleSearch] ++
      (if isMapQueryTest (toLowerStr (trim p.messageText)) then [Tool.googleMaps] else []),
    toolConfig := if isMapQueryTest (toLowerStr (trim p.messageText)) then p.geo else none }

/-- The stream-loop state after consuming all delivered chunks. -/
def netFold (p : Params) (messages : List Message) : StreamState :=
  p.stream.chunks.foldl (applyChunk (placeholderIdOf p))
    { fullText := [], accumulatedSources := [], cur := mkS1 p messages, states := [] }

/-- The state written by the catch handler (lines 590-592). -/
def errStateOf (p : Params) (messages : List Message) (e : Str) : List Message :=
  setPlaceholder (placeholderIdOf p)
    (fun m => { m with text := "Connection Error: ".toList ++ e, isLoading := some false })
    (netFold p messages).cur

/-- The state written by the time/date short-circuit (lines 502-505). -/
def timeStateOf (p : Params) (messages : List Message) : List Message :=
  setPlaceholder (placeholderIdOf p)
    (fun m => { m with
      text := "The current date and time is: ".toList ++ p.nowString,
      isLoading := some false }) (mkS1 p messages)

/-- The state written by the attribution short-circuit (lines 506-509). -/
def attribStateOf (p : Params) (messages : List Message) : List Message :=
  setPlaceholder (placeholderIdOf p)
    (fun m => { m with
      text := "I was created by **Mohammad Rayyan Ali**.".toList,
      isLoading := some false }) (mkS1 p messages)

/-- The state written by the missing-API-key branch (lines 513-517). -/
def keyStateOf (p : Params) (messages : List Message) : List Message :=
  setPlaceholder (placeholderIdOf p)
    (fun m => { m with
      text := "Error: API Key missing.".toList,
      isLoading := some false }) (mkS1 p messages)

/-- Path condition: the call passes the guards, is not a completed `/image`
command, and neither local short-circuit fires, so control reaches the
API-key check and (when the key is present) the network call.  Each conjunct
is the exact branch condition of the source. -/
def reachesNet (p : Params) (messages : List Message) : Prop :=
  (((trim p.messageText).isEmpty && p.imageAttachment.isNone) ||
    messages.any Message.loading) = false ∧
  (strStartsWith (toLowerStr (trim p.messageText)) ("/image ".toList) &&
    !((trim p.messageText).drop 7).isEmpty) = false ∧
  (p.imageAttachment.isNone && timeDateRegex (toLowerStr (trim p.messageText))) = false ∧
  (p.imageAttachment.isNone && creatorRegex (toLowerStr (trim p.messageText)) &&
    !containsSub (toLowerStr (trim p.messageText)) ("quantum coders".toList)) = false

instance (p : Params) (messages : List Message) : Decidable (reachesNet p messages) :=
  inferInstanceAs (Decidable (_ ∧ _ ∧ _ ∧ _))

lemma reachesNet_not_busy {p : Params} {messages : List Message}
    (h : reachesNet p messages) : messages.any Message.loading = false := by
  have h1 := h.1
  revert h1
  cases messages.any Message.loading <;> simp

/-! ### Basic lemmas about the string helpers -/

lemma strStartsWith_eq_take {s p : Str} (h : strStartsWith s p = true) :
    s.take p.length = p := by
  simpa [strStartsWith] using h

lemma strStartsWith_not_isEmpty {s p : Str} (h : strStartsWith s p = true)
    (hp : p ≠ []) : s.isEmpty = false := by
  have h1 := strStartsWith_eq_take h
  cases s with
  | nil =>
    exact absurd h1.symm (by simpa using hp)
  | cons a t => simp [List.isEmpty]

lemma toLowerStr_strStartsWith {s p : Str} (h : strStartsWith s p = true)
    (hp : p.map Char.toLower = p) : strStartsWith (toLowerStr s) p = true := by
  have h1 := strStartsWith_eq_take h
  have h2 : (toLowerStr s).take p.length = p := by
    rw [toLowerStr, ← List.map_take, h1, hp]
  simp [strStartsWith, h2]

/-! ### Branch-unfolding lemmas for `sendMessage` -/

lemma sendMessage_noop (p : Params) (messages : List Message)
    (h : (((trim p.messageText).isEmpty && p.imageAttachment.isNone) ||
      messages.any Message.loading) = true) :
    sendMessage p messages =
      { trace := [messages], calledSelectAgent := false, request := none } := by
  simp only [sendMessage, h, if_true]

lemma sendMessage_imageCmd (p : Params) (messages : List Message)
    (hg : (((trim p.messageText).isEmpty && p.imageAttachment.isNone) ||
      messages.any Message.loading) = false)
    (hImgC : (strStartsWith (toLowerStr (trim p.messageText)) ("/image ".toList) &&
      !((trim p.messageText).drop 7).isEmpty) = true) :
    sendMessage p messages =
      { trace := [messages, messages ++
          [mkUserMessage p,
           { role := Role.model, text := p.generateImageUrl ((trim p.messageText).drop 7),
             msgType := some MsgKind.image, agentName := some ("Creative Agent".toList),
             id := some (placeholderIdOf p) }]],
        calledSelectAgent := false, request := none } := by
  simp only [sendMessage, hg, hImgC, if_false, if_true,
    mkUserMessage, placeholderIdOf]
  rfl

lemma sendMessage_time (p : Params) (messages : List Message)
    (hg : (((trim p.messageText).isEmpty && p.imageAttachment.isNone) ||
      messages.any Message.loading) = false)
    (hImgC : (strStartsWith (toLowerStr (trim p.messageText)) ("/image ".toList) &&
      !((trim p.messageText).drop 7).isEmpty) = false)
    (hT : (p.imageAttachment.isNone && timeDateRegex (toLowerStr (trim p.messageText))) = true) :
    sendMessage p messages =
      { trace := [messages, mkS1 p messages, timeStateOf p messages],
        calledSelectAgent := true, request := none } := by
  simp only [sendMessage, hg, hImgC, hT, if_false, if_true,
    mkS1, mkUserMessage, agentNameOf, placeholderIdOf, timeStateOf]
  rfl

lemma sendMessage_attrib (p : Params) (messages : List Message)
    (hg : (((trim p.messageText).isEmpty && p.imageAttachment.isNone) ||
      messages.any Message.loading) = false)
    (hImgC : (strStartsWith (toLowerStr (trim p.messageText)) ("/image ".toList) &&
      !((trim p.messageText).drop 7).isEmpty) = false)
    (hT : (p.imageAttachment.isNone && timeDateRegex (toLowerStr (trim p.messageText))) = false)
    (hC : (p.imageAttachment.isNone && creatorRegex (toLowerStr (trim p.messageText)) &&
      !containsSub (toLowerStr (trim p.messageText)) ("quantum coders".toList)) = true) :
    sendMessage p messages =
      { trace := [messages, mkS1 p messages, attribStateOf p messages],
        calledSelectAgent := true, request := none } := by
  simp only [sendMessage, hg, hImgC, hT, hC, if_false, if_true,
    mkS1, mkUserMessage, agentNameOf, placeholderIdOf, attribStateOf]
  rfl

lemma sendMessage_nokey (p : Params) (messages : List Message)
    (h : reachesNet p messages) (hKey : strOptFalsy p.apiKey = true) :
    sendMessage p messages =
      { trace := [messages, mkS1 p messages, keyStateOf p messages],
        calledSelectAgent := true, request := none } := by
  obtain ⟨h1, h2, h3, h4⟩ := h
  simp only [sendMessage, h1, h2, h3, h4, hKey, if_false, if_true,
    mkS1, mkUserMessage, agentNameOf, placeholderIdOf, keyStateOf]
  rfl

lemma sendMessage_net (p : Params) (messages : List Message)
    (h : reachesNet p messages) (hKey : strOptFalsy p.apiKey = false) :
    sendMessage p messages =
      { trace := [messages, mkS1 p messages] ++ (netFold p messages).states ++
          (match p.stream.err with
           | some e => [errStateOf p messages e]
           | none => []),
        calledSelectAgent := true,
        request := some (mkRequest p messages) } := by
  obtain ⟨h1, h2, h3, h4⟩ := h
  cases hE : p.stream.err with
  | none =>
    simp only [sendMessage, h1, h2, h3, h4, hKey, hE, if_false, List.append_nil,
      mkS1, mkUserMessage, agentNameOf, placeholderIdOf, netFold, mkRequest,
      systemInstructionOf, historyForAPIOf, currentPartsOf]
    rfl
  | some e =>
    simp only [sendMessage, h1, h2, h3, h4, hKey, hE, if_false,
      mkS1, mkUserMessage, agentNameOf, placeholderIdOf, netFold, errStateOf, mkRequest,
      systemInstructionOf, historyForAPIOf, currentPartsOf]
    rfl

/-! ### Lemmas about `setPlaceholder` -/

lemma mem_setPlaceholder {pid : Str} {f : Message → Message} {ms : List Message}
    {m : Message} (h : m ∈ setPlaceholder pid f ms) :
    ∃ m₀ ∈ ms, m = if m₀.id = some pid then f m₀ else m₀ := by
  rcases List.mem_map.mp h with ⟨m₀, hm₀, hEq⟩
  exact ⟨m₀, hm₀, hEq.symm⟩

/-- Every message matching the placeholder id in the updated list satisfies
any property established by the updater on matching inputs. -/
lemma setPlaceholder_pid_prop {pid : Str} {f : Message → Message} {ms : List Message}
    (P : Message → Prop)
    (hP : ∀ m ∈ ms, m.id = some pid → P (f m)) :
    ∀ m ∈ setPlaceholder pid f ms, m.id = some pid → P m := by
  intro m hm hpid
  rcases mem_setPlaceholder hm with ⟨m₀, hm₀, hEq⟩
  by_cases hc : m₀.id = some pid
  · subst hEq
    simpa [hc] using hP m₀ hm₀ hc
  · rw [if_neg hc] at hEq
    subst hEq
    exact absurd hpid hc

lemma setPlaceholder_exists_pid {pid : Str} {f : Message → Message} {ms : List Message}
    (hid : ∀ m, (f m).id = m.id) (h : ∃ m ∈ ms, m.id = some pid) :
    ∃ m ∈ setPlaceholder pid f ms, m.id = some pid := by
  rcases h with ⟨m₀, hm₀, hpid⟩
  refine ⟨if m₀.id = some pid then f m₀ else m₀, List.mem_map.mpr ⟨m₀, hm₀, rfl⟩, ?_⟩
  simp [hpid, hid]

/-- Messages not matching the placeholder id are untouched, so a property of
all non-matching messages is preserved by the update. -/
lemma setPlaceholder_nonpid_prop {pid : Str} {f : Message → Message} {ms : List Message}
    (P : Message → Prop) (hid : ∀ m, (f m).id = m.id)
    (hP : ∀ m ∈ ms, m.id ≠ some pid → P m) :
    ∀ m ∈ setPlaceholder pid f ms, m.id ≠ some pid → P m := by
  intro m hm hpid
  rcases mem_setPlaceholder hm with ⟨m₀, hm₀, hEq⟩
  by_cases hc : m₀.id = some pid
  · rw [if_pos hc] at hEq
    rw [hEq, hid] at hpid
    exact absurd hc hpid
  · rw [if_neg hc] at hEq
    rw [hEq]
    exact hP m₀ hm₀ hc

lemma setPlaceholder_countLoading_le {pid : Str} {f : Message → Message}
    (hf : ∀ m, (f m).loading = true → m.loading = true) (ms : List Message) :
    countLoading (setPlaceholder pid f ms) ≤ countLoading ms := by
  induction ms with
  | nil => simp [setPlaceholder, countLoading]
  | cons a l ih =>
    simp only [setPlaceholder, countLoading, List.map_cons, List.countP_cons] at ih ⊢
    have hle : (if (if a.id = some pid then f a else a).loading = true then 1 else 0) ≤
        (if a.loading = true then 1 else 0) := by
      by_cases hc : a.id = some pid
      · simp only [if_pos hc]
        by_cases hl : (f a).loading = true
        · simp [hl, hf a hl]
        · simp [hl]
      · simp [if_neg hc]
    omega

/-! ### Lemmas about the stream fold -/

lemma applyChunk_isLoading {pid : Str} {st : StreamState} {c : Chunk} {b : Bool}
    (hc : ∀ m ∈ st.cur, m.id = some pid → m.isLoading = some b) :
    ∀ m ∈ (applyChunk pid st c).cur, m.id = some pid →
      m.isLoading = some (if truthyText c then false else b) := by
  unfold applyChunk
  by_cases ht : truthyText c
  · simp only [ht, if_true]
    by_cases hs : (chunkSourcesOf c).isEmpty
    · simp only [hs, if_true]
      exact setPlaceholder_pid_prop _ (fun m hm hp => rfl)
    · simp only [hs, if_false]
      exact setPlaceholder_pid_prop _
        (setPlaceholder_pid_prop _ (fun m hm hp => rfl))
  · simp only [ht, if_false]
    by_cases hs : (chunkSourcesOf c).isEmpty
    · simp only [hs, if_true]
      exact hc
    · simp only [hs, if_false]
      exact setPlaceholder_pid_prop _ (fun m hm hp => hc m hm hp)

lemma foldl_applyChunk_isLoading {pid : Str} (cs : List Chunk) (st : StreamState)
    (b : Bool) (hc : ∀ m ∈ st.cur, m.id = some pid → m.isLoading = some b) :
    ∀ m ∈ (cs.foldl (applyChunk pid) st).cur, m.id = some pid →
      m.isLoading = some (if cs.any truthyText then false else b) := by
  induction cs generalizing st b with
  | nil => simpa using hc
  | cons c cs ih =>
    have step := @applyChunk_isLoading pid st c b hc
    have := ih (applyChunk pid st c) (if truthyText c then false else b) step
    simp only [List.foldl_cons, List.any_cons]
    intro m hm hp
    have h2 := this m hm hp
    by_cases hT : truthyText c
    · simpa [hT] using h2
    · simpa [hT] using h2

/-- Invariant carried through the stream fold for the text, sources, shape
and loading observables of the loop state; `s0` is the message-list state on
entry to the loop. -/
structure StreamInv (pid : Str) (s0 : List Message) (st : StreamState) : Prop where
  text_eq : ∀ m ∈ st.cur, m.id = some pid → m.text = st.fullText
  states_text : ∀ s ∈ st.states, ∀ m ∈ s, m.id = some pid → m.text <+: st.fullText
  src_eq : (∀ m ∈ st.cur, m.id = some pid → m.sources = none) ∨
    (∀ m ∈ st.cur, m.id = some pid → m.sources = some st.accumulatedSources)
  ex_pid : ∃ m ∈ st.cur, m.id = some pid
  nonpid : ∀ m ∈ st.cur, m.id ≠ some pid → m.loading = false
  states_nonpid : ∀ s ∈ st.states, ∀ m ∈ s, m.id ≠ some pid → m.loading = false
  cur_last : st.states.getLastD s0 = st.cur

/-- One `setMessages` update inside the loop preserves the invariant, for a
new accumulated text extending the old one and a new source set that is
either untouched or written to every placeholder copy. -/
lemma stepInv {pid : Str} {s0 : List Message} {st : StreamState} (f : Message → Message)
    (ft : Str) (acc : List Source)
    (hid : ∀ m, (f m).id = m.id)
    (hpre : st.fullText <+: ft)
    (htext : ∀ m ∈ st.cur, m.id = some pid → (f m).text = ft)
    (hsrc : ((∀ m, (f m).sources = m.sources) ∧ acc = st.accumulatedSources) ∨
      (∀ m, (f m).sources = some acc))
    (h : StreamInv pid s0 st) :
    StreamInv pid s0
      { fullText := ft, accumulatedSources := acc,
        cur := setPlaceholder pid f st.cur,
        states := st.states ++ [setPlaceholder pid f st.cur] } := by
  refine ⟨?_, ?_, ?_, ?_, ?_, ?_, ?_⟩
  · exact setPlaceholder_pid_prop _ htext
  · intro s hs
    rcases List.mem_append.mp hs with hs | hs
    · intro m hm hp
      exact (h.states_text s hs m hm hp).trans hpre
    · have hs1 : s = setPlaceholder pid f st.cur := by simpa using hs
      subst hs1
      refine setPlaceholder_pid_prop _ (fun m hm hp => ?_)
      rw [htext m hm hp]
  · rcases hsrc with ⟨h2, h3⟩ | h2
    · rcases h.src_eq with h4 | h4
      · refine Or.inl (setPlaceholder_pid_prop _ (fun m hm hp => ?_))
        rw [h2]
        exact h4 m hm hp
      · refine Or.inr (setPlaceholder_pid_prop _ (fun m hm hp => ?_))
        rw [h2, h3]
        exact h4 m hm hp
    · exact Or.inr (setPlaceholder_pid_prop _ (fun m hm hp => h2 m))
  · exact setPlaceholder_exists_pid hid h.ex_pid
  · exact setPlaceholder_nonpid_prop _ hid h.nonpid
  · intro s hs
    rcases List.mem_append.mp hs with hs | hs
    · exact h.states_nonpid s hs
    · have hs1 : s = setPlaceholder pid f st.cur := by simpa using hs
      subst hs1
      exact setPlaceholder_nonpid_prop _ hid h.nonpid
  · exact List.getLastD_concat _ _ _

lemma applyChunk_inv {pid : Str} {s0 : List Message} {st : StreamState} {c : Chunk}
    (h : StreamInv pid s0 st) : StreamInv pid s0 (applyChunk pid st c) := by
  cases ht : truthyText c with
  | true =>
    have h1 := @stepInv pid s0 st
      (fun m => { m with text := st.fullText ++ c.text.getD [], isLoading := some false })
      (st.fullText ++ c.text.getD []) st.accumulatedSources
      (fun m => rfl) (List.prefix_append _ _) (fun m hm hp => rfl)
      (Or.inl ⟨fun m => rfl, rfl⟩) h
    cases hs : (chunkSourcesOf c).isEmpty with
    | true =>
      simp only [applyChunk, ht, hs, if_true]
      exact h1
    | false =>
      have h2 := stepInv (fun m => { m with sources := some (mergeSources st.accumulatedSources (chunkSourcesOf c)) }) (st.fullText ++ c.text.getD []) (mergeSources st.accumulatedSources (chunkSourcesOf c)) (fun m => rfl) List.prefix_rfl (fun m hm hp => h1.text_eq m hm hp) (Or.inr (fun m => rfl)) h1
      simp only [applyChunk, ht, hs]
      exact h2
  | false =>
    cases hs : (chunkSourcesOf c).isEmpty with
    | true =>
      simp only [applyChunk, ht, hs, if_true]
      exact h
    | false =>
      have h2 := stepInv (fun m => { m with sources := some (mergeSources st.accumulatedSources (chunkSourcesOf c)) }) st.fullText (mergeSources st.accumulatedSources (chunkSourcesOf c)) (fun m => rfl) List.prefix_rfl (fun m hm hp => h.text_eq m hm hp) (Or.inr (fun m => rfl)) h
      simp only [applyChunk, ht, hs]
      exact h2

lemma foldl_applyChunk_inv {pid : Str} {s0 : List Message} (cs : List Chunk) (st : StreamState)
    (h : StreamInv pid s0 st) : StreamInv pid s0 (cs.foldl (applyChunk pid) st) := by
  induction cs generalizing st with
  | nil => exact h
  | cons c cs ih => exact ih _ (applyChunk_inv h)

/-- The cross-chunk merge preserves URI-distinctness of the accumulated set,
as long as the new batch is itself URI-distinct. -/
lemma mergeSources_distinct {acc ns : List Source}
    (h1 : distinctURIs acc) (h2 : distinctURIs ns) :
    distinctURIs (mergeSources acc ns) := by
  unfold mergeSources distinctURIs
  rw [List.pairwise_append]
  refine ⟨h1, List.Pairwise.sublist (List.filter_sublist ns) h2, ?_⟩
  intro a ha b hb
  have hb1 := List.of_mem_filter hb
  have hb2 : acc.any (fun e => e.uri == b.uri) = false := by
    simpa using hb1
  have := (List.any_eq_false).mp hb2 a ha
  simpa using this

lemma applyChunk_distinct {pid : Str} {st : StreamState} {c : Chunk}
    (h1 : distinctURIs st.accumulatedSources)
    (h2 : distinctURIs (chunkSourcesOf c)) :
    distinctURIs (applyChunk pid st c).accumulatedSources := by
  cases ht : truthyText c with
  | true =>
    cases hs : (chunkSourcesOf c).isEmpty with
    | true => simpa [applyChunk, ht, hs] using h1
    | false =>
      simp only [applyChunk, ht, hs, if_true, if_false]
      exact mergeSources_distinct h1 h2
  | false =>
    cases hs : (chunkSourcesOf c).isEmpty with
    | true => simpa [applyChunk, ht, hs] using h1
    | false =>
      simp only [applyChunk, ht, hs, if_true, if_false]
      exact mergeSources_distinct h1 h2

lemma foldl_applyChunk_distinct {pid : Str} (cs : List Chunk) (st : StreamState)
    (h1 : distinctURIs st.accumulatedSources)
    (hcs : ∀ c ∈ cs, distinctURIs (chunkSourcesOf c)) :
    distinctURIs ((cs.foldl (applyChunk pid) st).accumulatedSources) := by
  induction cs generalizing st with
  | nil => exact h1
  | cons c cs ih =>
    exact ih _ (applyChunk_distinct h1 (hcs c (List.mem_cons_self c cs)))
      (fun d hd => hcs d (List.mem_cons_of_mem c hd))

lemma setPlaceholder_textload_countLoading_le (pid : Str) (t : Str) (ms : List Message) :
    countLoading (setPlaceholder pid (fun m => { m with text := t, isLoading := some false }) ms) ≤ countLoading ms :=
  setPlaceholder_countLoading_le (fun m hm => by simp [Message.loading] at hm) ms

lemma setPlaceholder_sources_countLoading_le (pid : Str) (acc : Option (List Source)) (ms : List Message) :
    countLoading (setPlaceholder pid (fun m => { m with sources := acc }) ms) ≤ countLoading ms := by
  refine setPlaceholder_countLoading_le ?_ ms
  intro m hm
  exact hm

lemma applyChunk_countLoading {pid : Str} {st : StreamState} {c : Chunk}
    (hcur : countLoading st.cur ≤ 1)
    (hst : ∀ s ∈ st.states, countLoading s ≤ 1) :
    countLoading (applyChunk pid st c).cur ≤ 1 ∧
      ∀ s ∈ (applyChunk pid st c).states, countLoading s ≤ 1 := by
  have hc1 : countLoading (setPlaceholder pid (fun m => { m with text := st.fullText ++ c.text.getD [], isLoading := some false }) st.cur) ≤ 1 :=
    le_trans (setPlaceholder_textload_countLoading_le _ _ _) hcur
  cases ht : truthyText c with
  | true =>
    cases hs : (chunkSourcesOf c).isEmpty with
    | true =>
      simp only [applyChunk, ht, hs, if_true]
      refine ⟨hc1, fun s hsm => ?_⟩
      rcases List.mem_append.mp hsm with hsm | hsm
      · exact hst s hsm
      · rw [List.mem_singleton.mp hsm]; exact hc1
    | false =>
      simp only [applyChunk, ht, hs, if_true, if_false]
      have hc2 : countLoading (setPlaceholder pid (fun m => { m with sources := some (mergeSources st.accumulatedSources (chunkSourcesOf c)) }) (setPlaceholder pid (fun m => { m with text := st.fullText ++ c.text.getD [], isLoading := some false }) st.cur)) ≤ 1 :=
        le_trans (setPlaceholder_sources_countLoading_le _ _ _) hc1
      refine ⟨hc2, fun s hsm => ?_⟩
      rcases List.mem_append.mp hsm with hsm | hsm
      · rcases List.mem_append.mp hsm with hsm | hsm
        · exact hst s hsm
        · rw [List.mem_singleton.mp hsm]; exact hc1
      · rw [List.mem_singleton.mp hsm]; exact hc2
  | false =>
    cases hs : (chunkSourcesOf c).isEmpty with
    | true =>
      simp only [applyChunk, ht, hs, if_true]
      exact ⟨hcur, hst⟩
    | false =>
      simp only [applyChunk, ht, hs, if_true, if_false]
      have hc2 : countLoading (setPlaceholder pid (fun m => { m with sources := some (mergeSources st.accumulatedSources (chunkSourcesOf c)) }) st.cur) ≤ 1 :=
        le_trans (setPlaceholder_sources_countLoading_le _ _ _) hcur
      refine ⟨hc2, fun s hsm => ?_⟩
      rcases List.mem_append.mp hsm with hsm | hsm
      · exact hst s hsm
      · rw [List.mem_singleton.mp hsm]; exact hc2

lemma foldl_applyChunk_countLoading {pid : Str} (cs : List Chunk) (st : StreamState)
    (hcur : countLoading st.cur ≤ 1)
    (hst : ∀ s ∈ st.states, countLoading s ≤ 1) :
    countLoading ((cs.foldl (applyChunk pid) st)).cur ≤ 1 ∧
      ∀ s ∈ (cs.foldl (applyChunk pid) st).states, countLoading s ≤ 1 := by
  induction cs generalizing st with
  | nil => exact ⟨hcur, hst⟩
  | cons c cs ih =>
    have h1 := @applyChunk_countLoading pid st c hcur hst
    exact ih _ h1.1 h1.2

/-! ### Base facts about the created state `mkS1` -/

lemma userId_ne_placeholderId (p : Params) :
    some (p.idBase ++ "-user".toList) ≠ some (placeholderIdOf p) := by
  intro h
  have h1 : p.idBase ++ "-user".toList = p.idBase ++ "-model".toList :=
    Option.some_injective _ h
  have h2 : "-user".toList = "-model".toList := List.append_cancel_left h1
  exact absurd h2 (by decide)

/-- The loading placeholder message appended by the orchestrator. -/
def plMsg (p : Params) : Message :=
  { role := Role.model, text := [], agentName := some (agentNameOf p),
    id := some (placeholderIdOf p), isLoading := some true }

lemma mem_mkS1 {p : Params} {messages : List Message} {m : Message}
    (hm : m ∈ mkS1 p messages) :
    m ∈ messages ∨ m = mkUserMessage p ∨ m = plMsg p := by
  rw [mkS1] at hm
  rcases List.mem_append.mp hm with h | h
  · exact Or.inl h
  · rcases List.mem_cons.mp h with h | h
    · exact Or.inr (Or.inl h)
    · exact Or.inr (Or.inr (by simpa [plMsg] using h))

lemma mkS1_inv (p : Params) (messages : List Message)
    (hBusy : messages.any Message.loading = false)
    (hfresh : ∀ m ∈ messages, m.id ≠ some (placeholderIdOf p)) :
    StreamInv (placeholderIdOf p) (mkS1 p messages)
      { fullText := [], accumulatedSources := [], cur := mkS1 p messages, states := [] } := by
  have hnl : ∀ m ∈ messages, m.loading = false := by
    intro m hm
    by_contra hx
    have : messages.any Message.loading = true :=
      List.any_eq_true.mpr ⟨m, hm, by revert hx; cases m.loading <;> simp⟩
    rw [this] at hBusy
    exact absurd hBusy (by simp)
  refine ⟨?_, ?_, ?_, ?_, ?_, ?_, ?_⟩
  · intro m hm hp
    rcases mem_mkS1 hm with hm | hm | hm
    · exact absurd hp (hfresh m hm)
    · rw [hm] at hp
      exact absurd hp (by simpa [mkUserMessage] using userId_ne_placeholderId p)
    · rw [hm]
      rfl
  · intro s hs
    exact absurd hs (by simp)
  · refine Or.inl (fun m hm hp => ?_)
    rcases mem_mkS1 hm with hm | hm | hm
    · exact absurd hp (hfresh m hm)
    · rw [hm] at hp
      exact absurd hp (by simpa [mkUserMessage] using userId_ne_placeholderId p)
    · rw [hm]
      rfl
  · refine ⟨plMsg p, ?_, rfl⟩
    simp [mkS1, plMsg]
  · intro m hm hp
    rcases mem_mkS1 hm with hm | hm | hm
    · exact hnl m hm
    · rw [hm]
      simp [mkUserMessage, Message.loading]
    · rw [hm] at hp
      exact absurd rfl hp
  · intro s hs
    exact absurd hs (by simp)
  · rfl

lemma mkS1_pid_loading (p : Params) (messages : List Message)
    (hfresh : ∀ m ∈ messages, m.id ≠ some (placeholderIdOf p)) :
    ∀ m ∈ mkS1 p messages, m.id = some (placeholderIdOf p) →
      m.isLoading = some true := by
  intro m hm hp
  rcases mem_mkS1 hm with hm | hm | hm
  · exact absurd hp (hfresh m hm)
  · rw [hm] at hp
    exact absurd hp (by simpa [mkUserMessage] using userId_ne_placeholderId p)
  · rw [hm]
    rfl

lemma mkS1_countLoading (p : Params) (messages : List Message)
    (hBusy : messages.any Message.loading = false) :
    countLoading (mkS1 p messages) = 1 := by
  have h0 : countLoading messages = 0 := by
    rw [countLoading, List.countP_eq_zero]
    intro m hm
    by_contra hx
    have : messages.any Message.loading = true :=
      List.any_eq_true.mpr ⟨m, hm, by revert hx; cases m.loading <;> simp⟩
    rw [this] at hBusy
    exact absurd hBusy (by simp)
  rw [mkS1, countLoading, List.countP_append]
  rw [countLoading] at h0
  rw [h0]
  simp [mkUserMessage, Message.loading]

/-! ### The last state of a trace -/

lemma getLastD_append_cons {α : Type} (l1 : List α) (a : α) (l2 : List α) (d : α) :
    (l1 ++ a :: l2).getLastD d = (a :: l2).getLastD d := by
  rw [List.getLastD_eq_getLast?, List.getLastD_eq_getLast?, List.getLast?_append]
  cases hb : (a :: l2).getLast? with
  | none => exact absurd (List.getLast?_eq_none_iff.mp hb) (by simp)
  | some b => simp

lemma netFold_inv (p : Params) (messages : List Message)
    (hBusy : messages.any Message.loading = false)
    (hfresh : ∀ m ∈ messages, m.id ≠ some (placeholderIdOf p)) :
    StreamInv (placeholderIdOf p) (mkS1 p messages) (netFold p messages) :=
  foldl_applyChunk_inv _ _ (mkS1_inv p messages hBusy hfresh)

lemma lastState_net_none (p : Params) (messages : List Message)
    (h : reachesNet p messages) (hKey : strOptFalsy p.apiKey = false)
    (hfresh : ∀ m ∈ messages, m.id ≠ some (placeholderIdOf p))
    (hE : p.stream.err = none) :
    lastState p messages = (netFold p messages).cur := by
  have hinv := netFold_inv p messages (reachesNet_not_busy h) hfresh
  rw [lastState, sendMessage_net p messages h hKey]
  simp only [hE, List.append_nil]
  have h1 : [messages, mkS1 p messages] ++ (netFold p messages).states =
      [messages] ++ mkS1 p messages :: (netFold p messages).states := rfl
  rw [h1, getLastD_append_cons, List.getLastD_cons]
  exact hinv.cur_last

lemma lastState_net_err (p : Params) (messages : List Message) (e : Str)
    (h : reachesNet p messages) (hKey : strOptFalsy p.apiKey = false)
    (hE : p.stream.err = some e) :
    lastState p messages = errStateOf p messages e := by
  rw [lastState, sendMessage_net p messages h hKey]
  simp only [hE]
  exact List.getLastD_concat _ _ _

lemma countLoading_eq_zero {messages : List Message}
    (hBusy : messages.any Message.loading = false) : countLoading messages = 0 := by
  rw [countLoading, List.countP_eq_zero]
  intro m hm
  by_contra hx
  have : messages.any Message.loading = true :=
    List.any_eq_true.mpr ⟨m, hm, by revert hx; cases m.loading <;> simp⟩
  rw [this] at hBusy
  exact absurd hBusy (by simp)

/-! ### Claim theorems -/

/-- C8: for every call to `sendMessage` where the trimmed text is empty and
no image attachment is present, the orchestrator performs no state change:
the trace consists of the unchanged initial transcript only, no message is
appended, the classifier is not invoked, and no network call is made. -/
theorem C8_empty_input_noop (p : Params) (messages : List Message)
    (htext : trim p.messageText = []) (himg : p.imageAttachment = none) :
    sendMessage p messages =
      { trace := [messages], calledSelectAgent := false, request := none } := by
  apply sendMessage_noop
  simp [htext, himg]

/-- Witness for C8 at the concrete whitespace-only input. -/
theorem C8_witness :
    trim ("   ".toList) = [] ∧
    sendMessage { messageText := "   ".toList } [] =
      { trace := [[]], calledSelectAgent := false, request := none } :=
  ⟨by decide, C8_empty_input_noop { messageText := "   ".toList } [] (by decide) rfl⟩

/-- C4: when the trimmed text begins with the literal prefix `/image `
followed by a non-empty prompt (and the transcript is not busy, so the call
is accepted), `sendMessage` never calls the persona classifier and makes no
network call; it appends exactly one user message and exactly one completed
(non-loading) model message of kind image whose text is the generated image
URL, tagged with the Creative persona ("Creative Agent"), and the turn
terminates there. -/
theorem C4_image_command (p : Params) (messages : List Message)
    (hBusy : messages.any Message.loading = false)
    (hStart : strStartsWith (trim p.messageText) ("/image ".toList) = true)
    (hPrompt : ((trim p.messageText).drop 7).isEmpty = false) :
    sendMessage p messages =
      { trace := [messages, messages ++
          [mkUserMessage p,
           { role := Role.model, text := p.generateImageUrl ((trim p.messageText).drop 7),
             msgType := some MsgKind.image, agentName := some ("Creative Agent".toList),
             id := some (placeholderIdOf p) }]],
        calledSelectAgent := false, request := none } := by
  have hne := strStartsWith_not_isEmpty hStart (by decide)
  have hLow := toLowerStr_strStartsWith hStart (by decide)
  refine sendMessage_imageCmd p messages (by simp [hne, hBusy]) ?_
  rw [hLow, hPrompt]
  rfl

def c4p : Params :=
  { messageText := "/image a cat".toList, idBase := "7".toList,
    generateImageUrl := fun s => "https://img/".toList ++ s }

/-- Witness for C4 at a concrete `/image` command. -/
theorem C4_witness :
    ([] : List Message).any Message.loading = false ∧
    strStartsWith (trim c4p.messageText) ("/image ".toList) = true ∧
    ((trim c4p.messageText).drop 7).isEmpty = false ∧
    sendMessage c4p [] =
      { trace := [[], [] ++
          [mkUserMessage c4p,
           { role := Role.model, text := c4p.generateImageUrl ((trim c4p.messageText).drop 7),
             msgType := some MsgKind.image, agentName := some ("Creative Agent".toList),
             id := some (placeholderIdOf c4p) }]],
        calledSelectAgent := false, request := none } :=
  ⟨rfl, by decide, by decide, C4_image_command c4p [] rfl (by decide) (by decide)⟩

/-- C9 (implicit): on a turn that passes the guards and the short-circuits,
if the API key is absent the placeholder is filled with the fixed text
"Error: API Key missing." and marked no-longer-loading, and no network
request is issued (and the classifier was already invoked). -/
theorem C9_missing_api_key (p : Params) (messages : List Message)
    (h : reachesNet p messages) (hKey : strOptFalsy p.apiKey = true) :
    sendMessage p messages =
      { trace := [messages, mkS1 p messages, keyStateOf p messages],
        calledSelectAgent := true, request := none } ∧
    (∀ m ∈ lastState p messages, m.id = some (placeholderIdOf p) →
      m.text = "Error: API Key missing.".toList ∧ m.isLoading = some false) ∧
    (∃ m ∈ lastState p messages, m.id = some (placeholderIdOf p)) := by
  have heq := sendMessage_nokey p messages h hKey
  have hlast : lastState p messages = keyStateOf p messages := by
    rw [lastState, heq]
    rfl
  refine ⟨heq, ?_, ?_⟩
  · rw [hlast, keyStateOf]
    exact setPlaceholder_pid_prop _ (fun m hm hp => ⟨rfl, rfl⟩)
  · rw [hlast, keyStateOf]
    refine setPlaceholder_exists_pid (fun m => rfl) ⟨plMsg p, ?_, rfl⟩
    simp [mkS1, plMsg]

/-- C5: the time/date and attribution short-circuits apply only when no image
is attached and are checked in a fixed order with only the first matching
rule applying: with no attachment, a time/date match yields the timestamp
response regardless of the creator/developer regex; the attribution rule
fires only when the time/date rule did not and the text does not name the
producing organization ("quantum coders"); when the organization is named,
or when an image is attached, no short-circuit fires and the network call
proceeds (when a key is present).  Both short-circuit outcomes fill the
placeholder, mark it no-longer-loading, and make zero network calls. -/
theorem C5_short_circuits (p : Params) (messages : List Message)
    (hBusy : messages.any Message.loading = false)
    (hImg : strStartsWith (toLowerStr (trim p.messageText)) ("/image ".toList) = false) :
    (p.imageAttachment = none → (trim p.messageText).isEmpty = false →
      timeDateRegex (toLowerStr (trim p.messageText)) = true →
      sendMessage p messages =
        { trace := [messages, mkS1 p messages, timeStateOf p messages],
          calledSelectAgent := true, request := none }) ∧
    (p.imageAttachment = none → (trim p.messageText).isEmpty = false →
      timeDateRegex (toLowerStr (trim p.messageText)) = false →
      creatorRegex (toLowerStr (trim p.messageText)) = true →
      containsSub (toLowerStr (trim p.messageText)) ("quantum coders".toList) = false →
      sendMessage p messages =
        { trace := [messages, mkS1 p messages, attribStateOf p messages],
          calledSelectAgent := true, request := none }) ∧
    (p.imageAttachment = none → (trim p.messageText).isEmpty = false →
      timeDateRegex (toLowerStr (trim p.messageText)) = false →
      containsSub (toLowerStr (trim p.messageText)) ("quantum coders".toList) = true →
      strOptFalsy p.apiKey = false →
        (sendMessage p messages).request = some (mkRequest p messages)) ∧
    (∀ a, p.imageAttachment = some a → strOptFalsy p.apiKey = false →
      (sendMessage p messages).request = some (mkRequest p messages)) := by
  refine ⟨?_, ?_, ?_, ?_⟩
  · intro hAtt hne hTime
    exact sendMessage_time p messages (by rw [hne, hBusy]; rfl) (by rw [hImg]; rfl)
      (by rw [hAtt, hTime]; rfl)
  · intro hAtt hne hTime hCre hOrg
    exact sendMessage_attrib p messages (by rw [hne, hBusy]; rfl) (by rw [hImg]; rfl)
      (by simp [hTime]) (by rw [hAtt, hCre, hOrg]; rfl)
  · intro hAtt hne hTime hOrg hKey
    have hR : reachesNet p messages :=
      ⟨by rw [hne, hBusy]; rfl, by rw [hImg]; rfl, by simp [hTime], by rw [hOrg]; simp⟩
    rw [sendMessage_net p messages hR hKey]
  · intro a hAtt hKey
    have hR : reachesNet p messages :=
      ⟨by simp [hAtt, hBusy], by rw [hImg]; rfl, by rw [hAtt]; rfl, by rw [hAtt]; rfl⟩
    rw [sendMessage_net p messages hR hKey]

def c5p : Params :=
  { messageText := "what time did your creator make you".toList, idBase := "5".toList }

/-- Witness for C5 at an input matching both the time/date and the
creator/developer regexes: the timestamp rule wins. -/
theorem C5_witness :
    ([] : List Message).any Message.loading = false ∧
    strStartsWith (toLowerStr (trim c5p.messageText)) ("/image ".toList) = false ∧
    c5p.imageAttachment = none ∧
    timeDateRegex (toLowerStr (trim c5p.messageText)) = true ∧
    creatorRegex (toLowerStr (trim c5p.messageText)) = true ∧
    sendMessage c5p [] =
      { trace := [[], mkS1 c5p [], timeStateOf c5p []],
        calledSelectAgent := true, request := none } :=
  ⟨rfl, by decide, rfl, by decide, by decide,
    (C5_short_circuits c5p [] rfl (by decide)).1 rfl (by decide) (by decide)⟩

/-- C6: on every turn that reaches the network call the web-search tool is
enabled; the maps tool is enabled exactly when the lowercased text matches
the nearby/location pattern, in which case the geolocation outcome (attempted
with a 10-second timeout) becomes the retrieval bias; a geolocation failure
leaves the bias empty but never prevents the request — the trace of the turn
does not depend on the geolocation outcome at all. -/
theorem C6_tools_and_geolocation (p : Params) (messages : List Message)
    (h : reachesNet p messages) (hKey : strOptFalsy p.apiKey = false) :
    (sendMessage p messages).request = some (mkRequest p messages) ∧
    Tool.googleSearch ∈ (mkRequest p messages).tools ∧
    (Tool.googleMaps ∈ (mkRequest p messages).tools ↔
      isMapQueryTest (toLowerStr (trim p.messageText)) = true) ∧
    (isMapQueryTest (toLowerStr (trim p.messageText)) = true →
      (mkRequest p messages).toolConfig = p.geo) ∧
    (isMapQueryTest (toLowerStr (trim p.messageText)) = false →
      (mkRequest p messages).toolConfig = none) ∧
    getCurrentPositionTimeoutMs = 10000 ∧
    (∀ g, (sendMessage { p with geo := g } messages).trace =
      (sendMessage p messages).trace) := by
  refine ⟨?_, ?_, ?_, ?_, ?_, rfl, ?_⟩
  · rw [sendMessage_net p messages h hKey]
  · simp [mkRequest]
  · cases hM : isMapQueryTest (toLowerStr (trim p.messageText)) with
    | true => simp [mkRequest, hM]
    | false => simp [mkRequest, hM]
  · intro hM
    simp [mkRequest, hM]
  · intro hM
    simp [mkRequest, hM]
  · intro g
    rw [sendMessage_net { p with geo := g } messages h hKey,
      sendMessage_net p messages h hKey]
    rfl

def c6p : Params :=
  { messageText := "good cafes near me".toList, idBase := "6".toList,
    apiKey := some ("key".toList), geo := none }

/-- Witness for C6 at a concrete maps-flagged query with geolocation denied. -/
theorem C6_witness :
    reachesNet c6p [] ∧ strOptFalsy c6p.apiKey = false ∧
    (sendMessage c6p []).request = some (mkRequest c6p []) :=
  ⟨by decide, rfl, (C6_tools_and_geolocation c6p [] (by decide) rfl).1⟩

lemma historyForAPIOf_eraseImage (messages : List Message) :
    historyForAPIOf (messages.map (fun m => { m with image := none })) =
      historyForAPIOf messages := by
  induction messages with
  | nil => rfl
  | cons a l ih =>
    simp only [historyForAPIOf, List.map_cons, List.filter_cons] at ih ⊢
    cases hc : (!a.loading) with
    | true =>
      have hc2 : (!({ a with image := none } : Message).loading) = true := hc
      simp only [hc2, eq_self_iff_true, if_true, List.map_cons]
      rw [ih]
    | false =>
      have hc2 : (!({ a with image := none } : Message).loading) = false := hc
      simp only [hc2, Bool.false_eq_true, if_false]
      exact ih

/-- C10 (implicit): the conversation history sent to the completion service
contains, for each prior non-loading message, only its role and its text;
image payloads attached to prior messages are dropped (the request is
invariant under erasing them), and the current turn's attachment (if any) is
the only inline image sent, as the last part of the final content entry. -/
theorem C10_history_drops_images (p : Params) (messages : List Message)
    (h : reachesNet p messages) (hKey : strOptFalsy p.apiKey = false) :
    (sendMessage p messages).request = some (mkRequest p messages) ∧
    (mkRequest p messages).contents =
      (messages.filter (fun m => !m.loading)).map
        (fun m => { role := m.role, parts := [Part.text m.text] }) ++
      [{ role := Role.user, parts := currentPartsOf p }] ∧
    (∀ e ∈ (mkRequest p messages).contents.dropLast, ∀ q ∈ e.parts,
      ∃ s, q = Part.text s) ∧
    mkRequest p (messages.map (fun m => { m with image := none })) =
      mkRequest p messages ∧
    (p.imageAttachment = none → ∀ e ∈ (mkRequest p messages).contents,
      ∀ q ∈ e.parts, ∃ s, q = Part.text s) ∧
    (∀ a, p.imageAttachment = some a →
      ((mkRequest p messages).contents.getLastD { role := Role.user, parts := [] }).parts =
        (if (trim p.messageText).isEmpty then [] else [Part.text (trim p.messageText)]) ++
        [Part.inlineData a.mimeType a.data]) := by
  have hist_text : ∀ e ∈ historyForAPIOf messages, ∀ q ∈ e.parts, ∃ s, q = Part.text s := by
    intro e he q hq
    rcases List.mem_map.mp he with ⟨m, hm, hEq⟩
    rw [← hEq] at hq
    simp only [List.mem_singleton] at hq
    exact ⟨m.text, hq⟩
  refine ⟨?_, rfl, ?_, ?_, ?_, ?_⟩
  · rw [sendMessage_net p messages h hKey]
  · intro e he
    rw [show (mkRequest p messages).contents = historyForAPIOf messages ++ [{ role := Role.user, parts := currentPartsOf p }] from rfl, List.dropLast_concat] at he
    exact hist_text e he
  · rw [mkRequest, mkRequest, historyForAPIOf_eraseImage]
  · intro hAtt e he q hq
    rcases List.mem_append.mp he with he | he
    · exact hist_text e he q hq
    · rw [List.mem_singleton.mp he] at hq
      rw [show currentPartsOf p = (if (trim p.messageText).isEmpty then [] else [Part.text (trim p.messageText)]) ++ [] from by rw [currentPartsOf, hAtt]] at hq
      rw [List.append_nil] at hq
      cases hie : (trim p.messageText).isEmpty with
      | true =>
        rw [hie] at hq
        exact absurd hq (by simp)
      | false =>
        rw [hie] at hq
        simp at hq
        exact ⟨trim p.messageText, hq⟩
  · intro a hAtt
    rw [show (mkRequest p messages).contents = historyForAPIOf messages ++ [{ role := Role.user, parts := currentPartsOf p }] from rfl, List.getLastD_concat]
    rw [currentPartsOf, hAtt]

def c10msgs : List Message :=
  [{ role := Role.user, text := "look".toList, image := some ("data:image/jpeg;x".toList) },
   { role := Role.model, text := "ok".toList }]

def c10p : Params :=
  { messageText := "tell me more".toList, idBase := "10".toList,
    apiKey := some ("key".toList),
    imageAttachment := some { data := "abc".toList, mimeType := "image/jpeg".toList, url := "blob:1".toList } }

/-- Witness for C10 at a transcript whose prior user message carries an
image. -/
theorem C10_witness :
    reachesNet c10p c10msgs ∧ strOptFalsy c10p.apiKey = false ∧
    (sendMessage c10p c10msgs).request = some (mkRequest c10p c10msgs) :=
  ⟨by decide, rfl,
    (C10_history_drops_images c10p c10msgs (by decide) rfl).1⟩

lemma bool_eq_false {b : Bool} (h : ¬ b = true) : b = false := by
  revert h
  cases b <;> simp

/-- Any accepted submission with non-empty trimmed text produces at least two
trace states (the transcript visibly changes), so an errored turn leaves the
transcript re-submittable. -/
lemma trace_length_ge_two (q : Params) (ms : List Message)
    (hne : (trim q.messageText).isEmpty = false)
    (hBusy : ms.any Message.loading = false) :
    2 ≤ (sendMessage q ms).trace.length := by
  have hg : (((trim q.messageText).isEmpty && q.imageAttachment.isNone) ||
      ms.any Message.loading) = false := by
    rw [hne, hBusy]
    rfl
  by_cases hI : (strStartsWith (toLowerStr (trim q.messageText)) ("/image ".toList) &&
      !((trim q.messageText).drop 7).isEmpty) = true
  · rw [sendMessage_imageCmd q ms hg hI]
    simp
  · have hI2 := bool_eq_false hI
    by_cases hT : (q.imageAttachment.isNone &&
        timeDateRegex (toLowerStr (trim q.messageText))) = true
    · rw [sendMessage_time q ms hg hI2 hT]
      simp
    · have hT2 := bool_eq_false hT
      by_cases hC : (q.imageAttachment.isNone &&
          creatorRegex (toLowerStr (trim q.messageText)) &&
          !containsSub (toLowerStr (trim q.messageText)) ("quantum coders".toList)) = true
      · rw [sendMessage_attrib q ms hg hI2 hT2 hC]
        simp
      · have hC2 := bool_eq_false hC
        have hR : reachesNet q ms := ⟨hg, hI2, hT2, hC2⟩
        cases hk : strOptFalsy q.apiKey with
        | true =>
          rw [sendMessage_nokey q ms hR hk]
          simp
        | false =>
          rw [sendMessage_net q ms hR hk]
          simp only [List.length_append, List.length_cons, List.length_nil]
          omega

/-- C3: for every error raised by the network call after the placeholder was
created (including mid-stream, after any prefix of chunks), the placeholder
text is replaced — independently of any streamed partial text — with the
connection-error message embedding the error detail, ending terminal with
loading=false and non-empty text; exactly one request was issued (no retry),
and nothing is left loading, so a later `sendMessage` with non-empty input
starts a fresh turn that visibly changes the transcript again. -/
theorem C3_error_replaces_text (p : Params) (messages : List Message) (e : Str)
    (h : reachesNet p messages) (hKey : strOptFalsy p.apiKey = false)
    (hE : p.stream.err = some e)
    (hfresh : ∀ m ∈ messages, m.id ≠ some (placeholderIdOf p)) :
    (sendMessage p messages).request = some (mkRequest p messages) ∧
    (∀ m ∈ lastState p messages, m.id = some (placeholderIdOf p) →
      m.text = "Connection Error: ".toList ++ e ∧ m.isLoading = some false ∧
        m.text ≠ []) ∧
    (∃ m ∈ lastState p messages, m.id = some (placeholderIdOf p)) ∧
    (∀ m ∈ lastState p messages, m.loading = false) ∧
    (lastState p messages).any Message.loading = false ∧
    (∀ q : Params, (trim q.messageText).isEmpty = false →
      2 ≤ (sendMessage q (lastState p messages)).trace.length) := by
  have hinv := netFold_inv p messages (reachesNet_not_busy h) hfresh
  have hlast := lastState_net_err p messages e h hKey hE
  have hall : ∀ m ∈ lastState p messages, m.loading = false := by
    rw [hlast, errStateOf]
    intro m hm
    by_cases hp : m.id = some (placeholderIdOf p)
    · have hload : m.isLoading = some false := by
        refine setPlaceholder_pid_prop (fun x => x.isLoading = some false) ?_ m hm hp
        intro x hx hq
        rfl
      rw [Message.loading, hload]
      rfl
    · refine setPlaceholder_nonpid_prop _ ?_ hinv.nonpid m hm hp
      intro x
      rfl
  have hany : (lastState p messages).any Message.loading = false := by
    rw [List.any_eq_false]
    intro m hm
    rw [hall m hm]
    simp
  refine ⟨?_, ?_, ?_, hall, hany, ?_⟩
  · rw [sendMessage_net p messages h hKey]
  · rw [hlast, errStateOf]
    refine setPlaceholder_pid_prop _ (fun m hm hp => ⟨rfl, rfl, ?_⟩)
    simp
  · rw [hlast, errStateOf]
    exact setPlaceholder_exists_pid (fun m => rfl) hinv.ex_pid
  · intro q hq
    exact trace_length_ge_two q _ hq hany

def c3p : Params :=
  { messageText := "hello there".toList, idBase := "3".toList,
    apiKey := some ("k".toList),
    stream := { chunks := [{ text := some ("partial".toList) }], err := some ("boom".toList) } }

/-- Witness for C3 at a mid-stream failure after one text chunk. -/
theorem C3_witness :
    reachesNet c3p [] ∧ strOptFalsy c3p.apiKey = false ∧
    c3p.stream.err = some ("boom".toList) ∧
    (sendMessage c3p []).request = some (mkRequest c3p []) :=
  ⟨by decide, rfl, rfl,
    (C3_error_replaces_text c3p [] ("boom".toList) (by decide) rfl rfl
      (by simp)).1⟩

/-- C2 (amended): the placeholder follows
created(loading=true, text="") at trace position 1, then streaming states
whose text always embeds a prefix of the accumulated text; it transitions
out of loading exactly when the first truthy text fragment arrives; an
error ending forces a terminal state with loading=false and the error text.
The amendment: when the stream ends normally, the placeholder has
loading=false only when at least one text fragment arrived — a normally
ending stream with no text fragment leaves the placeholder loading=true. -/
theorem C2_lifecycle (p : Params) (messages : List Message)
    (h : reachesNet p messages) (hKey : strOptFalsy p.apiKey = false)
    (hfresh : ∀ m ∈ messages, m.id ≠ some (placeholderIdOf p)) :
    ((sendMessage p messages).trace.get? 1 = some (mkS1 p messages)) ∧
    (∀ m ∈ mkS1 p messages, m.id = some (placeholderIdOf p) →
      m.isLoading = some true ∧ m.text = []) ∧
    (∃ m ∈ mkS1 p messages, m.id = some (placeholderIdOf p)) ∧
    (p.stream.err = none →
      ∀ m ∈ lastState p messages, m.id = some (placeholderIdOf p) →
        m.isLoading = some (if p.stream.chunks.any truthyText then false else true)) ∧
    (∀ e, p.stream.err = some e →
      ∀ m ∈ lastState p messages, m.id = some (placeholderIdOf p) →
        m.isLoading = some false ∧ m.text = "Connection Error: ".toList ++ e) ∧
    (∀ s ∈ (netFold p messages).states, ∀ m ∈ s, m.id = some (placeholderIdOf p) →
      m.text <+: (netFold p messages).fullText) := by
  have hinv := netFold_inv p messages (reachesNet_not_busy h) hfresh
  refine ⟨?_, ?_, ?_, ?_, ?_, hinv.states_text⟩
  · rw [sendMessage_net p messages h hKey]
    rfl
  · intro m hm hp
    exact ⟨mkS1_pid_loading p messages hfresh m hm hp,
      (mkS1_inv p messages (reachesNet_not_busy h) hfresh).text_eq m hm hp⟩
  · exact (mkS1_inv p messages (reachesNet_not_busy h) hfresh).ex_pid
  · intro hE
    rw [lastState_net_none p messages h hKey hfresh hE]
    exact foldl_applyChunk_isLoading p.stream.chunks _ true
      (mkS1_pid_loading p messages hfresh)
  · intro e hE
    rw [lastState_net_err p messages e h hKey hE, errStateOf]
    exact setPlaceholder_pid_prop _ (fun m hm hp => ⟨rfl, rfl⟩)

def c2p : Params :=
  { messageText := "hello there".toList, idBase := "2".toList,
    apiKey := some ("k".toList),
    stream := { chunks := [{ text := some ("answer".toList) }] } }

/-- Witness for C2 at a one-chunk stream that ends normally. -/
theorem C2_witness :
    reachesNet c2p [] ∧ strOptFalsy c2p.apiKey = false ∧
    (sendMessage c2p []).trace.get? 1 = some (mkS1 c2p []) :=
  ⟨by decide, rfl,
    (C2_lifecycle c2p [] (by decide) rfl (by simp)).1⟩

def c2cex : Params :=
  { messageText := "hello there".toList, idBase := "1".toList,
    apiKey := some ("k".toList) }

/-- Counterexample to C2 as stated: a stream that ends normally with no
text fragment leaves the placeholder with loading=true — the turn issued a
request, the stream ended without error, yet the final transcript state
still holds the placeholder in a non-terminal loading state. -/
theorem C2_counterexample :
    (sendMessage c2cex []).request.isSome = true ∧
    c2cex.stream.err = none ∧
    ((lastState c2cex []).getLastD { role := Role.model, text := [] }).id =
      some (placeholderIdOf c2cex) ∧
    ((lastState c2cex []).getLastD { role := Role.model, text := [] }).isLoading =
      some true :=
  ⟨by decide, rfl, by decide, by decide⟩

/-- C1 (amended): per chunk, citation entries missing a URI or title are
filtered out, and the merge never adds an entry whose URI is already among
the sources accumulated from previous chunks, each merge fully replacing the
placeholder's sources field with the accumulated set.  The amendment: the
within-chunk filter checks only previously accumulated sources, so the
no-duplicate guarantee needs each single chunk's filtered entries to carry
pairwise-distinct URIs; under that assumption the final source list of the
placeholder has no two entries with the same URI. -/
theorem C1_source_dedup (p : Params) (messages : List Message)
    (h : reachesNet p messages) (hKey : strOptFalsy p.apiKey = false)
    (hfresh : ∀ m ∈ messages, m.id ≠ some (placeholderIdOf p))
    (hchunks : ∀ c ∈ p.stream.chunks, distinctURIs (chunkSourcesOf c)) :
    distinctURIs ((netFold p messages).accumulatedSources) ∧
    (∀ m ∈ lastState p messages, m.id = some (placeholderIdOf p) →
      m.sources = none ∨
        m.sources = some ((netFold p messages).accumulatedSources)) ∧
    (∀ m ∈ lastState p messages, m.id = some (placeholderIdOf p) →
      distinctURIs (m.sources.getD [])) := by
  have hinv := netFold_inv p messages (reachesNet_not_busy h) hfresh
  have hdist : distinctURIs ((netFold p messages).accumulatedSources) :=
    foldl_applyChunk_distinct p.stream.chunks _ List.Pairwise.nil hchunks
  have hsrcP : ∀ m ∈ (netFold p messages).cur, m.id = some (placeholderIdOf p) →
      m.sources = none ∨ m.sources = some ((netFold p messages).accumulatedSources) := by
    rcases hinv.src_eq with hs | hs
    · exact fun m hm hp => Or.inl (hs m hm hp)
    · exact fun m hm hp => Or.inr (hs m hm hp)
  have hlastP : ∀ m ∈ lastState p messages, m.id = some (placeholderIdOf p) →
      m.sources = none ∨ m.sources = some ((netFold p messages).accumulatedSources) := by
    cases hE : p.stream.err with
    | none =>
      rw [lastState_net_none p messages h hKey hfresh hE]
      exact hsrcP
    | some e =>
      rw [lastState_net_err p messages e h hKey hE, errStateOf]
      exact setPlaceholder_pid_prop _ (fun m hm hp => hsrcP m hm hp)
  refine ⟨hdist, hlastP, ?_⟩
  intro m hm hp
  rcases hlastP m hm hp with h1 | h1
  · rw [h1]
    exact List.Pairwise.nil
  · rw [h1]
    exact hdist

def c1p : Params :=
  { messageText := "hello there".toList, idBase := "4".toList,
    apiKey := some ("k".toList),
    stream := { chunks :=
      [{ groundingChunks := some
          [{ web := some { uri := some ("u1".toList), title := some ("a".toList) } }] },
       { groundingChunks := some
          [{ web := some { uri := some ("u1".toList), title := some ("a2".toList) } },
           { web := some { uri := some ("u2".toList), title := some ("b".toList) } }] }] } }

/-- Witness for C1 at a two-chunk stream repeating a URI across chunks. -/
theorem C1_witness :
    reachesNet c1p [] ∧ strOptFalsy c1p.apiKey = false ∧
    (∀ c ∈ c1p.stream.chunks, distinctURIs (chunkSourcesOf c)) ∧
    distinctURIs ((netFold c1p []).accumulatedSources) :=
  ⟨by decide, rfl, by decide,
    (C1_source_dedup c1p [] (by decide) rfl (by simp) (by decide)).1⟩

def c1cex : Params :=
  { messageText := "hello there".toList, idBase := "1".toList,
    apiKey := some ("k".toList),
    stream := { chunks :=
      [{ groundingChunks := some
          [{ web := some { uri := some ("u".toList), title := some ("a".toList) } },
           { web := some { uri := some ("u".toList), title := some ("b".toList) } }] }] } }

/-- Counterexample to C1 as stated: a single chunk carrying two citation
entries that share one URI yields a final accumulated source list with a
duplicated URI — the dedup filter only checks previously accumulated
sources, not the entries of the same chunk. -/
theorem C1_counterexample :
    ((lastState c1cex []).getLastD { role := Role.model, text := [] }).id =
      some (placeholderIdOf c1cex) ∧
    ¬ distinctURIs
      ((((lastState c1cex []).getLastD { role := Role.model, text := [] }).sources).getD []) :=
  ⟨by decide, by decide⟩

def c9p : Params := { messageText := "hello there".toList, idBase := "3".toList }

/-- Witness for C9 at a concrete input with the API key absent. -/
theorem C9_witness :
    reachesNet c9p [] ∧ strOptFalsy c9p.apiKey = true ∧
    sendMessage c9p [] =
      { trace := [[], mkS1 c9p [], keyStateOf c9p []],
        calledSelectAgent := true, request := none } :=
  ⟨by decide, rfl, (C9_missing_api_key c9p [] (by decide) rfl).1⟩

/-- C7: while any message in the transcript has loading=true, a new
`sendMessage` submission is a no-op (unchanged trace, no classifier call, no
network call); and starting from a transcript with at most one loading
message, every state in the trace of a turn again has at most one loading
message — so at most one placeholder is ever in a non-terminal state. -/
theorem C7_busy_noop_single_loading (p : Params) (messages : List Message)
    (h : countLoading messages ≤ 1) :
    (messages.any Message.loading = true →
      sendMessage p messages =
        { trace := [messages], calledSelectAgent := false, request := none }) ∧
    (∀ s ∈ (sendMessage p messages).trace, countLoading s ≤ 1) := by
  constructor
  · intro hb
    apply sendMessage_noop
    rw [hb]
    simp
  · by_cases hb : messages.any Message.loading = true
    · rw [sendMessage_noop p messages (by rw [hb]; simp)]
      intro s hs
      rw [List.mem_singleton.mp hs]
      exact h
    · have hBusy : messages.any Message.loading = false := bool_eq_false hb
      have h0 : countLoading messages = 0 := countLoading_eq_zero hBusy
      have hmk : countLoading (mkS1 p messages) = 1 := mkS1_countLoading p messages hBusy
      by_cases hg : (((trim p.messageText).isEmpty && p.imageAttachment.isNone) ||
          messages.any Message.loading) = true
      · rw [sendMessage_noop p messages hg]
        intro s hs
        rw [List.mem_singleton.mp hs]
        exact h
      · have hg2 := bool_eq_false hg
        by_cases hI : (strStartsWith (toLowerStr (trim p.messageText)) ("/image ".toList) &&
            !((trim p.messageText).drop 7).isEmpty) = true
        · rw [sendMessage_imageCmd p messages hg2 hI]
          intro s hs
          simp only [List.mem_cons, List.mem_singleton, List.not_mem_nil, or_false] at hs
          rcases hs with hs | hs
          · rw [hs]
            omega
          · rw [hs, countLoading, List.countP_append]
            rw [countLoading] at h0
            rw [h0]
            simp [mkUserMessage, Message.loading]
        · have hI2 := bool_eq_false hI
          have hshort : ∀ t : Str,
              countLoading (setPlaceholder (placeholderIdOf p)
                (fun m => { m with text := t, isLoading := some false })
                (mkS1 p messages)) ≤ 1 := by
            intro t
            refine le_trans (setPlaceholder_textload_countLoading_le _ _ _) ?_
            rw [hmk]
          by_cases hT : (p.imageAttachment.isNone &&
              timeDateRegex (toLowerStr (trim p.messageText))) = true
          · rw [sendMessage_time p messages hg2 hI2 hT]
            intro s hs
            simp only [List.mem_cons, List.mem_singleton, List.not_mem_nil, or_false] at hs
            rcases hs with hs | hs | hs
            · rw [hs]; omega
            · rw [hs, hmk]
            · rw [hs]
              exact hshort _
          · have hT2 := bool_eq_false hT
            by_cases hC : (p.imageAttachment.isNone &&
                creatorRegex (toLowerStr (trim p.messageText)) &&
                !containsSub (toLowerStr (trim p.messageText)) ("quantum coders".toList)) = true
            · rw [sendMessage_attrib p messages hg2 hI2 hT2 hC]
              intro s hs
              simp only [List.mem_cons, List.mem_singleton, List.not_mem_nil, or_false] at hs
              rcases hs with hs | hs | hs
              · rw [hs]; omega
              · rw [hs, hmk]
              · rw [hs]
                exact hshort _
            · have hC2 := bool_eq_false hC
              have hR : reachesNet p messages := ⟨hg2, hI2, hT2, hC2⟩
              have hfold := @foldl_applyChunk_countLoading (placeholderIdOf p)
                p.stream.chunks
                { fullText := [], accumulatedSources := [], cur := mkS1 p messages, states := [] }
                (le_of_eq hmk) (by intro s hs; exact absurd hs (List.not_mem_nil s))
              cases hk : strOptFalsy p.apiKey with
              | true =>
                rw [sendMessage_nokey p messages hR hk]
                intro s hs
                simp only [List.mem_cons, List.mem_singleton, List.not_mem_nil, or_false] at hs
                rcases hs with hs | hs | hs
                · rw [hs]; omega
                · rw [hs, hmk]
                · rw [hs]
                  exact hshort _
              | false =>
                rw [sendMessage_net p messages hR hk]
                intro s hs
                rcases List.mem_append.mp hs with hs | hs
                · rcases List.mem_append.mp hs with hs | hs
                  · simp only [List.mem_cons, List.mem_singleton, List.not_mem_nil, or_false] at hs
                    rcases hs with hs | hs
                    · rw [hs]; omega
                    · rw [hs, hmk]
                  · exact hfold.2 s hs
                · cases hE : p.stream.err with
                  | none =>
                    rw [hE] at hs
                    exact absurd hs (List.not_mem_nil s)
                  | some e =>
                    rw [hE] at hs
                    rw [List.mem_singleton.mp hs, errStateOf]
                    refine le_trans (setPlaceholder_textload_countLoading_le _ _ _) ?_
                    exact hfold.1

def c7msgs : List Message :=
  [{ role := Role.model, text := [], isLoading := some true }]

/-- Witness for C7 at a transcript with one in-flight placeholder: the new
submission is rejected without any state change. -/
theorem C7_witness :
    countLoading c7msgs ≤ 1 ∧ c7msgs.any Message.loading = true ∧
    sendMessage { messageText := "hi".toList } c7msgs =
      { trace := [c7msgs], calledSelectAgent := false, request := none } :=
  ⟨by decide, by decide,
    (C7_busy_noop_single_loading { messageText := "hi".toList } c7msgs (by decide)).1
      (by decide)⟩

end Zephyr
